import Mathlib

/-!
Shallow embedding of `ebml/decode.go` (package ebml of jacereda/ebml-go),
a schema-driven EBML decoder.

Modelling conventions, fixed once for the whole file:

* An `io.Reader` is modelled by `Reader`: either the raw byte stream
  (`base`, a list of byte values, each `< 256`) or an `io.LimitedReader`
  (`limited n inner`, Go's `io.LimitReader`), whose remaining count `N` is
  an `Int` (Go `int64`).  Reading one byte through a `limited` node
  decrements its count and consumes from the inner reader, exactly as
  `io.LimitedReader.Read` does; a `limited` node with `n ≤ 0` reports
  end of stream even when the inner reader still has bytes.
* `io.ReadFull` over a 1-byte buffer either yields the byte or fails with
  `io.EOF` (it can never fail with `io.ErrUnexpectedEOF`, since a short
  read of a 1-byte buffer reads zero bytes).  Hence `readVint`, and
  therefore `Element.Next`, fail only with `io.EOF`; they are modelled
  with `Option`, `none` standing for `io.EOF`.  `ReadData` (a multi-byte
  `io.ReadFull`) distinguishes `io.EOF` (zero bytes read) from
  `io.ErrUnexpectedEOF` (a partial read), as Go's `io.ReadAtLeast` does.
* Go machine integers are `Nat`/`Int` with explicit wrapping: `uint64`
  accumulation wraps modulo `2 ^ 64`, `int64` conversion is `toInt64`.
* `log.Panic` and `reflect` panics (out-of-range `Field`, failed type
  assertion, `Set` with a mismatched type, negative `make` size) are the
  `Res.panic` outcome.  The `readStruct` loop carries explicit fuel;
  `Res.fuelOut` is the model artifact for exhausted fuel and corresponds
  to no Go behaviour.
* Destination structs (`reflect.Value` of struct kind) are modelled by
  `Rec`: a list of fields, each a `FieldSpec` (name, parsed `ebml` /
  `ebmlstop` tags, raw `ebmldef` / `ebmldeflink` tags, field kind) paired
  with its current `Value`.  The modelled fragment of field kinds is
  `uint64` (`kUint`), `int64` (`kInt`), `[]uint8` (`kBytes`) and `bool`
  (`kBool`, an unsupported kind); all fields are exported
  (`CanInterface` holds).  The `ebml` and `ebmlstop` struct tags, which
  `getTag` parses with `strconv.ParseUint(sid, 16, 0)` ignoring errors
  (absent or malformed tags parse as 0), are carried pre-parsed as `Nat`;
  the `ebmldef`/`ebmldeflink` tags are carried as the raw strings that
  `reflect.StructTag.Get` returns (`""` when absent), and the decimal
  parsers `strconv.ParseUint`/`ParseInt` with `bitSize 0`, whose errors
  `setFieldDefaults` ignores (syntax errors yield 0, range errors yield
  the clamped extreme), are modelled by `goParseUint`/`goParseInt`.
-/

set_option maxRecDepth 8000

namespace EbmlGo

/-- Model of the `io.Reader` chains the decoder builds: the underlying
byte stream, wrapped in zero or more `io.LimitedReader`s. -/
inductive Reader : Type
  | base (data : List Nat) : Reader
  | limited (n : Int) (inner : Reader) : Reader
deriving DecidableEq, Repr

/-- Reading a single byte, as Go's `Read` with a 1-byte buffer behaves on
this reader chain: `none` is `io.EOF`. -/
def Reader.read1 : Reader → Option (Nat × Reader)
  | .base [] => none
  | .base (b :: rest) => some (b, .base rest)
  | .limited n r =>
      if n ≤ 0 then none
      else
        match r.read1 with
        | none => none
        | some (b, r1) => some (b, .limited (n - 1) r1)

/-- The reader one level inside a `limited` node.  After a child element
(whose reader is `io.LimitReader(parent, sz)`) has been read, the parent
continues from exactly this inner reader, because every read through the
child also drained the shared parent stream. -/
def Reader.inside : Reader → Reader
  | .base d => .base d
  | .limited _ r => r

/-- Go `func remaining(x int8) (rem int)`: counts loop iterations of
`for x > 0 { rem++; x += x }` with 8-bit wrapping signed overflow.  The
argument is the unsigned byte value `b < 256`; `x > 0` is
`0 < b ∧ b < 128` and `x += x` is doubling modulo 256.  The loop runs at
most 7 times on any byte, so fuel 8 is exact. -/
def remainingAux : Nat → Nat → Nat
  | 0, _ => 0
  | fuel + 1, b => if 0 < b ∧ b < 128 then remainingAux fuel (2 * b % 256) + 1 else 0

/-- Go `remaining` on a byte value. -/
def remaining (b : Nat) : Nat := remainingAux 8 b

/-- The inner loop of `readVint`: read `count` further bytes, folding
them big-endian onto `val` (`val <<= 8; val += v[0]`).  On a failed read
Go leaves `err` set and the accumulated `val` is dead in every caller, so
the model stops at `none` directly.  `val` never exceeds `2 ^ 64 - 1`
(at most 8 bytes total), so the `uint64` shifts never wrap. -/
def readVintLoop : Nat → Nat → Reader → Option Nat × Reader
  | 0, val, r => (some val, r)
  | count + 1, val, r =>
      match r.read1 with
      | none => (none, r)
      | some (b, r1) => readVintLoop count (val * 256 + b) r1

/-- Go `readVint(r) (val uint64, err error, rem int)`: first byte, then
`remaining` continuation bytes.  `none` is `io.EOF` (the only possible
error on a byte-list stream); on success the pair is `(val, rem)`. -/
def readVint (r : Reader) : Option (Nat × Nat) × Reader :=
  match r.read1 with
  | none => (none, r)
  | some (b, r1) =>
      match readVintLoop (remaining b) b r1 with
      | (none, r2) => (none, r2)
      | (some val, r2) => (some (val, remaining b), r2)

/-- `math.MaxUint64`. -/
def maxUint64 : Nat := 2 ^ 64 - 1

/-- `math.MaxInt64`. -/
def maxInt64 : Int := 2 ^ 63 - 1

/-- Conversion of a `uint64` bit pattern to Go `int64`. -/
def toInt64 (n : Nat) : Int :=
  if n % 2 ^ 64 < 2 ^ 63 then ((n % 2 ^ 64 : Nat) : Int)
  else ((n % 2 ^ 64 : Nat) : Int) - 2 ^ 64

/-- Go `readSize`: `int64(val & ^(128 << uint(rem*8-rem)))` — the vint
value with the single marker bit cleared (`^` is `uint64` complement,
i.e. xor with all ones). -/
def readSize (r : Reader) : Option Int × Reader :=
  match readVint r with
  | (none, r1) => (none, r1)
  | (some (val, rem), r1) =>
      (some (toInt64 (Nat.land val (Nat.xor maxUint64 (Nat.shiftLeft 128 (rem * 8 - rem))))), r1)

/-- Go `Element`: a reader (bounded for every child; the root holds
`io.LimitReader(r, math.MaxInt64)`) and the raw identifier. -/
structure Element where
  r : Reader
  id : Nat
deriving DecidableEq, Repr

/-- Go `RootElement`: identifier 0, bound `math.MaxInt64`. -/
def rootElement (data : List Nat) : Element :=
  ⟨.limited maxInt64 (.base data), 0⟩

/-- Go `(*Element).Next`: one identifier vint (raw), one size vint
(marker cleared), then a child whose reader is `io.LimitReader(e.R, sz)`.
`none` is `io.EOF`, the only error either vint read can produce here; the
second component is the parent reader after the header bytes were
consumed (on failure, after whatever bytes the failed reads drained). -/
def next (e : Element) : Option Element × Reader :=
  match readVint e.r with
  | (none, r1) => (none, r1)
  | (some (id, _), r1) =>
      match readSize r1 with
      | (none, r2) => (none, r2)
      | (some sz, r2) => (some ⟨.limited sz r2, id⟩, r2)

/-- Outcome of a Go computation that may `panic`; `fuelOut` is the model
artifact for exhausted loop fuel (no Go counterpart). -/
inductive Res (α : Type) : Type
  | ok (a : α) : Res α
  | panic : Res α
  | fuelOut : Res α
deriving DecidableEq, Repr

/-- Errors surfaced through Go's `error` return, as far as the decoder
distinguishes them: `io.EOF`, `io.ErrUnexpectedEOF`, the
`ReachedPayloadError{First, Rest}` struct, and the `errors.New` values of
`readField`/`readSlice` for unsupported destination kinds. -/
inductive DecErr : Type
  | eof : DecErr
  | unexpectedEOF : DecErr
  | reachedPayload (first : Element) (rest : Element) : DecErr
  | unknownType : DecErr
deriving DecidableEq, Repr

/-- Reads up to `count` bytes, stopping early at end of stream; returns
the bytes actually read.  This is the read loop inside `io.ReadFull`. -/
def readBytesAux : Nat → Reader → List Nat × Reader
  | 0, r => ([], r)
  | count + 1, r =>
      match r.read1 with
      | none => ([], r)
      | some (b, r1) =>
          match readBytesAux count r1 with
          | (bs, r2) => (b :: bs, r2)

/-- Go `(*Element).ReadData`: `sz := e.Size()` (the `*io.LimitedReader`
type assertion panics on a bare reader, and `make([]uint8, sz)` panics on
a negative size), then `io.ReadFull(e.R, d)`.  The returned slice is the
whole `sz`-byte buffer, zero beyond the bytes actually read, exactly as
Go returns `d` even on error; the error is `nil` on a full read, `io.EOF`
when nothing was read, `io.ErrUnexpectedEOF` on a partial read. -/
def readData (e : Element) : Res (List Nat × Option DecErr × Reader) :=
  match e.r with
  | .base _ => .panic
  | .limited n inner =>
      if n < 0 then .panic
      else
        match readBytesAux n.toNat (.limited n inner) with
        | (got, r1) =>
            .ok (got ++ List.replicate (n.toNat - got.length) 0,
                 if got.length = n.toNat then none
                 else if got.length = 0 then some .eof else some .unexpectedEOF,
                 r1)

/-- The big-endian `uint64` accumulation of `readUint64`
(`val <<= 8; val += uint64(d[i])`), wrapping modulo `2 ^ 64`. -/
def beVal (d : List Nat) : Nat :=
  d.foldl (fun a b => (a * 256 + b) % 2 ^ 64) 0

/-- Go `(*Element).readUint64`: `ReadData`, then the big-endian fold over
the whole returned buffer (also when `err ≠ nil`, as in Go). -/
def readUint64 (e : Element) : Res (Nat × Option DecErr × Reader) :=
  match readData e with
  | .ok (d, err, r1) => .ok (beVal d, err, r1)
  | .panic => .panic
  | .fuelOut => .fuelOut

/-- Go `(*Element).skip`: discard `ReadData`. -/
def skip (e : Element) : Res (Option DecErr × Reader) :=
  match readData e with
  | .ok (_, err, r1) => .ok (err, r1)
  | .panic => .panic
  | .fuelOut => .fuelOut

/-- The modelled fragment of destination field kinds: Go `uint64`,
`int64`, `[]uint8` and `bool`. -/
inductive FieldKind : Type
  | kUint : FieldKind
  | kInt : FieldKind
  | kBytes : FieldKind
  | kBool : FieldKind
deriving DecidableEq, Repr

/-- A destination field's current value. -/
inductive Value : Type
  | vUint (n : Nat) : Value
  | vInt (i : Int) : Value
  | vBytes (d : List Nat) : Value
  | vBool (b : Bool) : Value
deriving DecidableEq, Repr

/-- The `reflect.Kind` of a value. -/
def valueKind : Value → FieldKind
  | .vUint _ => .kUint
  | .vInt _ => .kInt
  | .vBytes _ => .kBytes
  | .vBool _ => .kBool

/-- The zero `reflect.Value` of a kind (`[]uint8`'s zero value is the nil
slice, modelled as `[]`). -/
def zeroValue : FieldKind → Value
  | .kUint => .vUint 0
  | .kInt => .vInt 0
  | .kBytes => .vBytes []
  | .kBool => .vBool false

/-- `reflect.DeepEqual(v.Interface(), reflect.Zero(v.Type()).Interface())`
on the modelled kinds.  Only ever consulted by `setFieldDefaults`, hence
only on the scalar kinds. -/
def isZero (v : Value) : Bool :=
  v = zeroValue (valueKind v)

/-- One destination struct field: its name, its `ebml` and `ebmlstop`
tags pre-parsed as `getTag` parses them (hexadecimal, 0 when absent or
malformed), its raw `ebmldef` and `ebmldeflink` tags (`""` when absent),
and its kind. -/
structure FieldSpec where
  name : String
  ebml : Nat
  ebmlstop : Nat
  ebmldef : String
  ebmldeflink : String
  kind : FieldKind
deriving DecidableEq, Repr

/-- A destination struct: fields in declaration order, each spec paired
with its current value. -/
abbrev Rec : Type := List (FieldSpec × Value)

/-- Go `lookup(reqid, t)` with running index: the first field whose
`ebml` tag equals `reqid` yields `i - 1000000*int(getTag(f, "ebmlstop"))`;
no match yields `-1`. -/
def lookupAux : Nat → Nat → List FieldSpec → Int
  | _, _, [] => -1
  | reqid, i, f :: rest =>
      if f.ebml = reqid then (i : Int) - 1000000 * (f.ebmlstop : Int)
      else lookupAux reqid (i + 1) rest

/-- Go `lookup(reqid, t)`. -/
def lookup (reqid : Nat) (fields : List FieldSpec) : Int :=
  lookupAux reqid 0 fields

/-- Decimal digit run, `none` as soon as a non-digit appears. -/
def parseDecDigits (l : List Char) : Option Nat :=
  l.foldl
    (fun acc c =>
      match acc with
      | none => none
      | some a => if c.isDigit then some (a * 10 + (c.toNat - 48)) else none)
    (some 0)

/-- `strconv.ParseUint(s, 10, 0)` as `setFieldDefaults` uses it, the
error ignored: syntax errors yield 0, range errors yield
`math.MaxUint64`. -/
def goParseUint (s : String) : Nat :=
  match s.data with
  | [] => 0
  | l =>
      match parseDecDigits l with
      | none => 0
      | some v => if 2 ^ 64 ≤ v then maxUint64 else v

/-- Clamping to the `int64` range, as `strconv.ParseInt` reports range
errors (the error itself being ignored by the caller). -/
def clampInt64 (i : Int) : Int :=
  if maxInt64 < i then maxInt64 else if i < -(2 ^ 63) then -(2 ^ 63) else i

/-- `strconv.ParseInt(s, 10, 0)` as `setFieldDefaults` uses it, the error
ignored: an optional sign then digits; syntax errors yield 0. -/
def goParseInt (s : String) : Int :=
  match s.data with
  | [] => 0
  | '+' :: rest =>
      match rest, parseDecDigits rest with
      | [], _ => 0
      | _, none => 0
      | _, some v => clampInt64 (v : Int)
  | '-' :: rest =>
      match rest, parseDecDigits rest with
      | [], _ => 0
      | _, none => 0
      | _, some v => clampInt64 (-(v : Int))
  | l =>
      match parseDecDigits l with
      | none => 0
      | some v => clampInt64 (v : Int)

/-- `reflect.Value.FieldByName` on the modelled struct: the first field
with the given name, together with its current value. -/
def fieldByName (rec : Rec) (nm : String) : Option (FieldSpec × Value) :=
  List.find? (fun p => p.1.name == nm) rec

/-- Go `setFieldDefaults(v, sf, s)`: when the field is still zero, first
the literal `ebmldef` default (parsed per kind; a kind outside the inner
switch is `log.Panic("Unsupported default value")`), then — with no
further zero check — the `ebmldeflink` assignment
`v.Set(s.FieldByName(ltag))`, which overwrites whatever the literal set
and panics if the named field does not exist or has a different type.
`none` is a panic. -/
def setFieldDefaults (f : FieldSpec) (v : Value) (s : Rec) : Option Value :=
  if isZero v then
    match
      (if f.ebmldef ≠ "" then
        match f.kind with
        | .kInt => some (Value.vInt (goParseInt f.ebmldef))
        | .kUint => some (Value.vUint (goParseUint f.ebmldef))
        | _ => none
      else some v) with
    | none => none
    | some v1 =>
        if f.ebmldeflink ≠ "" then
          match fieldByName s f.ebmldeflink with
          | none => none
          | some (_, gv) => if valueKind gv = f.kind then some gv else none
        else some v1
  else some v

/-- Go `setDefaults(v)`, processing fields in declaration order over the
mutating struct: `done` holds the already-processed prefix (with its
final values), `todo` the rest; the struct passed to `setFieldDefaults`
is the current whole struct.  Scalar kinds go through
`setFieldDefaults`; slice kinds are skipped; any other kind (here
`kBool`) is `log.Panic("Unsupported type")`, i.e. `none`. -/
def setDefaultsAux : Rec → Rec → Option Rec
  | done, [] => some done
  | done, (f, v) :: todo =>
      match
        (match f.kind with
         | .kUint => setFieldDefaults f v (done ++ (f, v) :: todo)
         | .kInt => setFieldDefaults f v (done ++ (f, v) :: todo)
         | .kBytes => some v
         | .kBool => none) with
      | none => none
      | some v1 => setDefaultsAux (done ++ [(f, v1)]) todo

/-- Go `setDefaults(v)`. -/
def setDefaults (rec : Rec) : Option Rec :=
  setDefaultsAux [] rec

/-- Go `(*Element).readField(v)` on the modelled kinds: `uint64` and
`int64` fields take `readUint64` (the value is stored even when the read
erred, as Go assigns before checking); `[]uint8` fields take `readSlice`'s
`[]uint8` arm, which stores only on a `nil` error; `bool` hits the
`default` arm, `errors.New("Unknown type: …")`, reading nothing.  The
reader returned is the child's reader after the operation. -/
def readField (e : Element) (v : Value) : Res (Value × Option DecErr × Reader) :=
  match v with
  | .vUint _ =>
      match readUint64 e with
      | .ok (u, err, r1) => .ok (.vUint u, err, r1)
      | .panic => .panic
      | .fuelOut => .fuelOut
  | .vInt _ =>
      match readUint64 e with
      | .ok (u, err, r1) => .ok (.vInt (toInt64 u), err, r1)
      | .panic => .panic
      | .fuelOut => .fuelOut
  | .vBytes _ =>
      match readData e with
      | .ok (d, err, r1) =>
          .ok ((if err = none then .vBytes d else v), err, r1)
      | .panic => .panic
      | .fuelOut => .fuelOut
  | .vBool _ => .ok (v, some .unknownType, e.r)

/-- The loop of Go `(*Element).readStruct`: `Next`, then dispatch on
`lookup`.  `Next`'s only possible error here is `io.EOF`, which the code
turns into a normal break (`err = nil`).  A non-negative index reads the
field (panicking, as `v.Field(i)` would, if the index were out of range —
unreachable, since `lookup` only returns indexes of existing fields);
`-1` skips; any other negative value stops with
`ReachedPayloadError{ne, e}`.  The result carries the error returned,
the struct, and the element's reader at loop exit. -/
def readStructLoop : Nat → Element → Rec → Res (Option DecErr × Rec × Reader)
  | 0, _, _ => .fuelOut
  | fuel + 1, e, rec =>
      match next e with
      | (none, r1) => .ok (none, rec, r1)
      | (some ne, r1) =>
          let i := lookup ne.id (rec.map Prod.fst)
          if 0 ≤ i then
            match rec.get? i.toNat with
            | none => .panic
            | some (f, v) =>
                match readField ne v with
                | .ok (v1, none, cr) =>
                    readStructLoop fuel ⟨cr.inside, e.id⟩ (rec.set i.toNat (f, v1))
                | .ok (v1, some er, cr) =>
                    .ok (some er, rec.set i.toNat (f, v1), cr.inside)
                | .panic => .panic
                | .fuelOut => .fuelOut
          else if i = -1 then
            match skip ne with
            | .ok (none, cr) => readStructLoop fuel ⟨cr.inside, e.id⟩ rec
            | .ok (some er, cr) => .ok (some er, rec, cr.inside)
            | .panic => .panic
            | .fuelOut => .fuelOut
          else
            .ok (some (.reachedPayload ne ⟨r1, e.id⟩), rec, r1)

/-- Go `(*Element).readStruct(v)`: the loop, then — on every loop exit,
error or not — `setDefaults(v)`, then return the loop's error. -/
def readStruct (fuel : Nat) (e : Element) (rec : Rec) : Res (Option DecErr × Rec × Reader) :=
  match readStructLoop fuel e rec with
  | .ok (err, rec1, r) =>
      match setDefaults rec1 with
      | some rec2 => .ok (err, rec2, r)
      | none => .panic
  | .panic => .panic
  | .fuelOut => .fuelOut

/-- Go `Unmarshal` on a root element over the given bytes. -/
def unmarshal (fuel : Nat) (data : List Nat) (rec : Rec) : Res (Option DecErr × Rec × Reader) :=
  readStruct fuel (rootElement data) rec

/-- Binary digit count of a byte by repeated halving (fuel 8 is exact for
values below 256); `bitLenAux 8 b - 1` is the position of `b`'s highest
set bit. -/
def bitLenAux : Nat → Nat → Nat
  | 0, _ => 0
  | fuel + 1, n => if n = 0 then 0 else bitLenAux fuel (n / 2) + 1

/-- The specification's "count of leading zero bits in that byte up to
the first set bit": for a nonzero byte, 8 minus its binary digit
count. -/
def clz8 (b : Nat) : Nat := 8 - bitLenAux 8 b

/-- The big-endian accumulation of a vint whose first byte is `b` and
whose continuation bytes are `l` (no wrapping: a vint spans at most 8
bytes, so the `uint64` accumulator never overflows). -/
def vintVal (b : Nat) (l : List Nat) : Nat :=
  l.foldl (fun a c => a * 256 + c) b

/-- The parsed literal default of a field, as `setFieldDefaults` computes
it on the scalar kinds. -/
def literalVal (f : FieldSpec) : Value :=
  match f.kind with
  | .kUint => .vUint (goParseUint f.ebmldef)
  | .kInt => .vInt (goParseInt f.ebmldef)
  | .kBytes => .vBytes []
  | .kBool => .vBool false

/-- A one-field destination: `A uint64` tagged `ebml:"81"`. -/
def fsA : FieldSpec := ⟨"A", 0x81, 0, "", "", .kUint⟩

/-- A `uint64` field `B` tagged `ebml:"82" ebmldef:"3"`. -/
def fsB3 : FieldSpec := ⟨"B", 0x82, 0, "3", "", .kUint⟩

/-- A `uint64` field `A` tagged `ebml:"81" ebmldef:"7" ebmldeflink:"B"`:
both a literal and a linked default. -/
def fsA7B : FieldSpec := ⟨"A", 0x81, 0, "7", "B", .kUint⟩

/-- A `uint64` field `S` tagged `ebml:"A1" ebmlstop:"1"`: a stop
sentinel. -/
def fsStop : FieldSpec := ⟨"S", 0xA1, 1, "", "", .kUint⟩

/-- A `bool` field `Z` tagged `ebml:"83"`: a kind outside the decoder's
supported set. -/
def fsBool : FieldSpec := ⟨"Z", 0x83, 0, "", "", .kBool⟩

/-- A `uint64` field `A` tagged `ebml:"81" ebmldef:"7"`. -/
def fsA7 : FieldSpec := ⟨"A", 0x81, 0, "7", "", .kUint⟩

/-- Destination struct holding only field `A`, at its zero value. -/
def recA : Rec := [(fsA, .vUint 0)]

/-- Destination struct with fields `B` (literal default 3) and `A`
(literal default 7 and link to `B`), both zero. -/
def recBA : Rec := [(fsB3, .vUint 0), (fsA7B, .vUint 0)]

/-- Destination struct with the single stop-sentinel field `S`. -/
def recStop : Rec := [(fsStop, .vUint 0)]

/-- Destination struct with the single unsupported `bool` field `Z`. -/
def recBool : Rec := [(fsBool, .vBool false)]

/-- Destination struct with stop field `S` and defaulted field `A`. -/
def recStopA : Rec := [(fsStop, .vUint 0), (fsA7, .vUint 0)]

/-- Every value in the struct has its field's kind. -/
def kindsOk (rec : Rec) : Prop :=
  ∀ p ∈ rec, valueKind p.2 = p.1.kind

/-- Every `ebmldeflink` tag names some field of the struct, and every
field of that name has the linking field's kind. -/
def linksOk (rec : Rec) : Prop :=
  ∀ p ∈ rec, p.1.ebmldeflink ≠ "" →
    (∃ q ∈ rec, q.1.name = p.1.ebmldeflink) ∧
    (∀ q ∈ rec, q.1.name = p.1.ebmldeflink → q.1.kind = p.1.kind)

/-- A limited reader over an exhausted stream reads nothing. -/
theorem read1_limited_nil (n : Int) : (Reader.limited n (.base [])).read1 = none := by
  simp [Reader.read1]

/-- A limited reader with budget left pops the head byte and decrements
its count. -/
theorem read1_limited_cons (n : Int) (hn : 0 < n) (b : Nat) (l : List Nat) :
    (Reader.limited n (.base (b :: l))).read1 = some (b, .limited (n - 1) (.base l)) := by
  have h1 : ¬ n ≤ 0 := by omega
  simp [Reader.read1, h1]

/-- Reading through two nested limits decrements both counts. -/
theorem read1_limited2_cons (n m : Int) (hn : 0 < n) (hm : 0 < m) (b : Nat) (l : List Nat) :
    (Reader.limited n (.limited m (.base (b :: l)))).read1
      = some (b, .limited (n - 1) (.limited (m - 1) (.base l))) := by
  have h1 : ¬ n ≤ 0 := by omega
  have h2 : ¬ m ≤ 0 := by omega
  simp [Reader.read1, h1, h2]

/-- Bytes at or above `0x80` start a one-byte vint: the `remaining` loop
body never runs. -/
theorem remaining_high (b : Nat) (hb : 128 ≤ b) : remaining b = 0 := by
  have h : ¬ (0 < b ∧ b < 128) := by omega
  simp [remaining, remainingAux, h]

/-- When the stream holds fewer continuation bytes than the vint
declares, the continuation loop drains everything and fails with
`io.EOF`. -/
theorem readVintLoop_drain (tail : List Nat) : ∀ (k val : Nat) (n : Int),
    tail.length < k → (tail.length : Int) ≤ n →
    readVintLoop k val (.limited n (.base tail)) = (none, .limited (n - tail.length) (.base [])) := by
  induction tail with
  | nil =>
      intro k val n hk hn
      cases k with
      | zero => omega
      | succ k => simp [readVintLoop, read1_limited_nil]
  | cons b t ih =>
      intro k val n hk hn
      cases k with
      | zero => simp at hk
      | succ k =>
          have hlen : ((b :: t).length : Int) = (t.length : Int) + 1 := by
            simp [List.length_cons]
          have hn0 : 0 < n := by omega
          have hk1 : t.length < k := by simp at hk; omega
          have hn1 : (t.length : Int) ≤ n - 1 := by omega
          simp only [readVintLoop, read1_limited_cons n hn0 b t]
          rw [ih k (val * 256 + b) (n - 1) hk1 hn1]
          have heq : n - 1 - (t.length : Int) = n - (((b :: t).length : Nat) : Int) := by
            rw [hlen]; ring
          rw [heq]

/-- On a bare stream with enough bytes, the vint continuation loop takes
exactly the declared count and folds it big-endian. -/
theorem readVintLoop_take : ∀ (k : Nat) (tail : List Nat) (val : Nat), k ≤ tail.length →
    readVintLoop k val (.base tail)
      = (some ((tail.take k).foldl (fun a c => a * 256 + c) val), .base (tail.drop k)) := by
  intro k
  induction k with
  | zero => intro tail val h; simp [readVintLoop]
  | succ k ih =>
      intro tail val h
      cases tail with
      | nil => simp at h
      | cons b t =>
          simp only [readVintLoop, Reader.read1]
          rw [ih t (val * 256 + b) (by simpa using h)]
          simp

/-- A vint on a bare stream with enough continuation bytes: the length
is `remaining` of the first byte and the value is the big-endian fold of
exactly that many bytes. -/
theorem readVint_base_cons (b : Nat) (tail : List Nat) (h : remaining b ≤ tail.length) :
    readVint (.base (b :: tail))
      = (some (vintVal b (tail.take (remaining b)), remaining b), .base (tail.drop (remaining b))) := by
  simp only [readVint, Reader.read1]
  rw [readVintLoop_take (remaining b) tail b h]
  simp [vintVal]

/-- A one-byte vint (first byte at or above `0x80`) under a limit with
budget: the raw value is the byte itself. -/
theorem readVint_single (b : Nat) (hb : 128 ≤ b) (n : Int) (hn : 0 < n) (l : List Nat) :
    readVint (.limited n (.base (b :: l))) = (some (b, 0), .limited (n - 1) (.base l)) := by
  simp only [readVint, read1_limited_cons n hn b l, remaining_high b hb, readVintLoop]

/-- Clearing the marker bit of a one-byte vint subtracts `0x80`. -/
theorem mask_single : ∀ b < 256, 128 ≤ b →
    Nat.land b (Nat.xor maxUint64 (Nat.shiftLeft 128 0)) = b - 128 := by decide

/-- A one-byte size under a limit with budget: the byte minus the marker
bit `0x80`. -/
theorem readSize_single (s : Nat) (h1 : 128 ≤ s) (h2 : s < 256) (n : Int) (hn : 0 < n)
    (l : List Nat) :
    readSize (.limited n (.base (s :: l))) = (some ((s : Int) - 128), .limited (n - 1) (.base l)) := by
  have hv : toInt64 (s - 128) = (s : Int) - 128 := by
    simp only [toInt64]
    rw [Nat.mod_eq_of_lt (show s - 128 < 2 ^ 64 by omega)]
    rw [if_pos (show s - 128 < 2 ^ 63 by omega)]
    omega
  simp only [readSize, readVint_single s h1 n hn l]
  rw [show (0 * 8 - 0 : Nat) = 0 from rfl, mask_single s h2 h1, hv]

/-- `Next` on a stream starting with a one-byte identifier and a
one-byte size: the child is bounded to the decoded size and carries the
raw identifier; the parent has consumed exactly the two header bytes. -/
theorem next_single (i s : Nat) (hi1 : 128 ≤ i) (hi2 : i < 256) (hs1 : 128 ≤ s) (hs2 : s < 256)
    (n : Int) (hn : 1 < n) (l : List Nat) (pid : Nat) :
    next ⟨.limited n (.base (i :: s :: l)), pid⟩
      = (some ⟨.limited ((s : Int) - 128) (.limited (n - 2) (.base l)), i⟩,
         .limited (n - 2) (.base l)) := by
  simp only [next, readVint_single i hi1 n (by omega) (s :: l),
    readSize_single s hs1 hs2 (n - 1) (by omega) l]
  have h2 : n - 1 - 1 = n - 2 := by ring
  rw [h2]

/-- Draining an exact byte count through two nested limits yields those
bytes and decrements both limits by the count. -/
theorem readBytesAux_drain2 : ∀ (pl rest : List Nat) (n m : Int),
    (pl.length : Int) ≤ n → (pl.length : Int) ≤ m →
    readBytesAux pl.length (.limited n (.limited m (.base (pl ++ rest))))
      = (pl, .limited (n - pl.length) (.limited (m - pl.length) (.base rest))) := by
  intro pl
  induction pl with
  | nil => intro rest n m hn hm; simp [readBytesAux]
  | cons b t ih =>
      intro rest n m hn hm
      have hl : ((b :: t).length : Int) = (t.length : Int) + 1 := by simp
      have hn0 : 0 < n := by omega
      have hm0 : 0 < m := by omega
      simp only [List.length_cons, List.cons_append, readBytesAux,
        read1_limited2_cons n m hn0 hm0 b (t ++ rest)]
      rw [ih rest (n - 1) (m - 1) (by omega) (by omega)]
      have e1 : n - 1 - (t.length : Int) = n - ((t.length : Int) + 1) := by ring
      have e2 : m - 1 - (t.length : Int) = m - ((t.length : Int) + 1) := by ring
      simp [e1, e2]

/-- `ReadData` on a child bounded to exactly the length of the payload
in front of the stream: returns the payload with a `nil` error, the
child's budget at 0, and the parent's limit decremented by the payload
length. -/
theorem readData_exact2 (pl rest : List Nat) (m : Int) (hm : (pl.length : Int) ≤ m) (id : Nat) :
    readData ⟨.limited ((pl.length : Nat) : Int) (.limited m (.base (pl ++ rest))), id⟩
      = .ok (pl, none, .limited 0 (.limited (m - pl.length) (.base rest))) := by
  simp only [readData]
  rw [if_neg (by omega)]
  have ht : ((pl.length : Nat) : Int).toNat = pl.length := by omega
  rw [ht, readBytesAux_drain2 pl rest ((pl.length : Nat) : Int) m (by omega) hm]
  simp

/-- When some field of the struct bears the wanted name,
`reflect.Value.FieldByName` finds one bearing it. -/
theorem fieldByName_found (s : Rec) (nm : String) (h : ∃ q ∈ s, q.1.name = nm) :
    ∃ q, fieldByName s nm = some q ∧ q ∈ s ∧ q.1.name = nm := by
  obtain ⟨q0, hq0, hnm⟩ := h
  have hs : (List.find? (fun p => p.1.name == nm) s).isSome :=
    List.find?_isSome.mpr ⟨q0, hq0, by simpa using hnm⟩
  obtain ⟨q, hq⟩ := Option.isSome_iff_exists.mp hs
  refine ⟨q, hq, List.mem_of_find?_eq_some hq, ?_⟩
  have := List.find?_some hq
  simpa using this

/-- Replacing one field's value leaves every property of the struct's
specs intact: the existential transfer. -/
theorem ex_spec_congr (done rest : Rec) (f : FieldSpec) (v v1 : Value) (P : FieldSpec → Prop)
    (h : ∃ q ∈ done ++ (f, v) :: rest, P q.1) :
    ∃ q ∈ done ++ (f, v1) :: rest, P q.1 := by
  obtain ⟨q, hq, hp⟩ := h
  rcases List.mem_append.1 hq with hq | hq
  · exact ⟨q, List.mem_append.2 (Or.inl hq), hp⟩
  · rcases List.mem_cons.1 hq with hq | hq
    · refine ⟨(f, v1), List.mem_append.2 (Or.inr (List.mem_cons_self _ _)), ?_⟩
      have : q.1 = f := by rw [hq]
      rwa [this] at hp
    · exact ⟨q, List.mem_append.2 (Or.inr (List.mem_cons_of_mem _ hq)), hp⟩

/-- Replacing one field's value leaves every property of the struct's
specs intact: the universal transfer. -/
theorem all_spec_congr (done rest : Rec) (f : FieldSpec) (v v1 : Value) (P : FieldSpec → Prop)
    (h : ∀ q ∈ done ++ (f, v) :: rest, P q.1) :
    ∀ q ∈ done ++ (f, v1) :: rest, P q.1 := by
  intro q hq
  rcases List.mem_append.1 hq with hq | hq
  · exact h q (List.mem_append.2 (Or.inl hq))
  · rcases List.mem_cons.1 hq with hq | hq
    · have hf := h (f, v) (List.mem_append.2 (Or.inr (List.mem_cons_self _ _)))
      have : q.1 = f := by rw [hq]
      rwa [this]
    · exact h q (List.mem_append.2 (Or.inr (List.mem_cons_of_mem _ hq)))

/-- What `setFieldDefaults` produces on a scalar field whose link, if
any, resolves to a same-kind field: no panic, a value of the field's
kind, and that value is the old one, the parsed literal (only when no
link is declared), or a linked sibling's current value. -/
theorem setFieldDefaults_char (f : FieldSpec) (v : Value) (s : Rec)
    (hk : f.kind = .kUint ∨ f.kind = .kInt)
    (hv : valueKind v = f.kind)
    (hks : ∀ p ∈ s, valueKind p.2 = p.1.kind)
    (hlink : f.ebmldeflink ≠ "" →
      (∃ q ∈ s, q.1.name = f.ebmldeflink) ∧
      (∀ q ∈ s, q.1.name = f.ebmldeflink → q.1.kind = f.kind)) :
    ∃ v1, setFieldDefaults f v s = some v1 ∧ valueKind v1 = f.kind ∧
      (v1 = v ∨
       (f.ebmldef ≠ "" ∧ f.ebmldeflink = "" ∧ v1 = literalVal f) ∨
       (f.ebmldeflink ≠ "" ∧ ∃ q ∈ s, q.1.name = f.ebmldeflink ∧ v1 = q.2)) := by
  by_cases hz : isZero v
  · have hlit : (if f.ebmldef ≠ "" then
        (match f.kind with
         | .kInt => some (Value.vInt (goParseInt f.ebmldef))
         | .kUint => some (Value.vUint (goParseUint f.ebmldef))
         | _ => none)
      else some v) = some (if f.ebmldef ≠ "" then literalVal f else v) := by
      by_cases hd : f.ebmldef = ""
      · simp [hd]
      · rcases hk with hk | hk <;> simp [hd, literalVal, hk]
    by_cases hl : f.ebmldeflink = ""
    · refine ⟨if f.ebmldef ≠ "" then literalVal f else v, ?_, ?_, ?_⟩
      · simp only [setFieldDefaults, hz, if_true, hlit, hl]
        simp
      · by_cases hd : f.ebmldef = ""
        · simp [hd, hv]
        · rcases hk with hk | hk <;> simp [hd, literalVal, hk, valueKind]
      · by_cases hd : f.ebmldef = ""
        · simp [hd]
        · right; left; exact ⟨hd, hl, by simp [hd]⟩
    · obtain ⟨hex, hall⟩ := hlink hl
      obtain ⟨⟨g, gv⟩, hfind, hmem, hnm⟩ := fieldByName_found s f.ebmldeflink hex
      have hgk : valueKind gv = f.kind := by
        have h1 := hks (g, gv) hmem
        have h2 := hall (g, gv) hmem hnm
        rw [h1, h2]
      refine ⟨gv, ?_, hgk, Or.inr (Or.inr ⟨hl, (g, gv), hmem, hnm, rfl⟩)⟩
      simp only [setFieldDefaults, hz, if_true, hlit, hl, hfind]
      simp [hgk]
      exact fun h => absurd h hl
  · refine ⟨v, ?_, hv, Or.inl rfl⟩
    simp [setFieldDefaults, hz]

/-- What the `setDefaults` sweep produces on a struct whose remaining
fields are scalars or byte slices with well-formed links: no panic, the
processed fields keep their specs and kinds, and every field ends at its
old value, its parsed literal default, or a linked sibling's value drawn
from the struct before or after the sweep. -/
theorem setDefaultsAux_char : ∀ (todo done : Rec),
    (∀ p ∈ done ++ todo, valueKind p.2 = p.1.kind) →
    (∀ p ∈ todo, p.1.kind = .kUint ∨ p.1.kind = .kInt ∨ p.1.kind = .kBytes) →
    (∀ p ∈ todo, p.1.ebmldeflink ≠ "" →
       (∃ q ∈ done ++ todo, q.1.name = p.1.ebmldeflink) ∧
       (∀ q ∈ done ++ todo, q.1.name = p.1.ebmldeflink → q.1.kind = p.1.kind)) →
    ∃ out, setDefaultsAux done todo = some (done ++ out) ∧
      out.map Prod.fst = todo.map Prod.fst ∧
      (∀ p ∈ out, valueKind p.2 = p.1.kind) ∧
      (∀ j p q, todo.get? j = some p → out.get? j = some q →
        q.1 = p.1 ∧
        (q.2 = p.2 ∨
         (p.1.ebmldef ≠ "" ∧ p.1.ebmldeflink = "" ∧ q.2 = literalVal p.1) ∨
         (p.1.ebmldeflink ≠ "" ∧
          ∃ q2, (q2 ∈ done ++ todo ∨ q2 ∈ done ++ out) ∧
            q2.1.name = p.1.ebmldeflink ∧ q.2 = q2.2))) := by
  intro todo
  induction todo with
  | nil =>
      intro done hkinds hsupp hlinks
      refine ⟨[], by simp [setDefaultsAux], by simp, by simp, ?_⟩
      intro j p q hp hq
      simp at hp
  | cons hd rest ih =>
      obtain ⟨f, v⟩ := hd
      intro done hkinds hsupp hlinks
      have hmemfv : (f, v) ∈ done ++ (f, v) :: rest :=
        List.mem_append.2 (Or.inr (List.mem_cons_self _ _))
      have hstep : ∃ v1,
          setDefaultsAux done ((f, v) :: rest) = setDefaultsAux (done ++ [(f, v1)]) rest ∧
          valueKind v1 = f.kind ∧
          (v1 = v ∨ (f.ebmldef ≠ "" ∧ f.ebmldeflink = "" ∧ v1 = literalVal f) ∨
           (f.ebmldeflink ≠ "" ∧
            ∃ q2 ∈ done ++ (f, v) :: rest, q2.1.name = f.ebmldeflink ∧ v1 = q2.2)) := by
        rcases hsupp (f, v) (List.mem_cons_self _ _) with hk | hk | hk
        · have hkf : f.kind = .kUint := hk
          obtain ⟨v1, hsfd, hv1k, hc⟩ := setFieldDefaults_char f v (done ++ (f, v) :: rest)
            (Or.inl hkf) (hkinds (f, v) hmemfv) hkinds (hlinks (f, v) (List.mem_cons_self _ _))
          exact ⟨v1, by simp [setDefaultsAux, hkf, hsfd], hv1k, hc⟩
        · have hkf : f.kind = .kInt := hk
          obtain ⟨v1, hsfd, hv1k, hc⟩ := setFieldDefaults_char f v (done ++ (f, v) :: rest)
            (Or.inr hkf) (hkinds (f, v) hmemfv) hkinds (hlinks (f, v) (List.mem_cons_self _ _))
          exact ⟨v1, by simp [setDefaultsAux, hkf, hsfd], hv1k, hc⟩
        · have hkf : f.kind = .kBytes := hk
          exact ⟨v, by simp [setDefaultsAux, hkf], hkinds (f, v) hmemfv, Or.inl rfl⟩
      obtain ⟨v1, hseq, hv1k, hv1c⟩ := hstep
      have hkinds' : ∀ p ∈ (done ++ [(f, v1)]) ++ rest, valueKind p.2 = p.1.kind := by
        rw [← List.append_cons]
        intro p hp
        rcases List.mem_append.1 hp with hp | hp
        · exact hkinds p (List.mem_append.2 (Or.inl hp))
        · rcases List.mem_cons.1 hp with hp | hp
          · rw [hp]; exact hv1k
          · exact hkinds p (List.mem_append.2 (Or.inr (List.mem_cons_of_mem _ hp)))
      have hsupp' : ∀ p ∈ rest, p.1.kind = .kUint ∨ p.1.kind = .kInt ∨ p.1.kind = .kBytes :=
        fun p hp => hsupp p (List.mem_cons_of_mem _ hp)
      have hlinks' : ∀ p ∈ rest, p.1.ebmldeflink ≠ "" →
          (∃ q ∈ (done ++ [(f, v1)]) ++ rest, q.1.name = p.1.ebmldeflink) ∧
          (∀ q ∈ (done ++ [(f, v1)]) ++ rest,
            q.1.name = p.1.ebmldeflink → q.1.kind = p.1.kind) := by
        rw [← List.append_cons]
        intro p hp hnz
        obtain ⟨hex, hall⟩ := hlinks p (List.mem_cons_of_mem _ hp) hnz
        exact ⟨ex_spec_congr done rest f v v1 (fun g => g.name = p.1.ebmldeflink) hex,
          all_spec_congr done rest f v v1
            (fun g => g.name = p.1.ebmldeflink → g.kind = p.1.kind) hall⟩
      obtain ⟨out1, heq1, hmap1, hko1, hchar1⟩ := ih (done ++ [(f, v1)]) hkinds' hsupp' hlinks'
      refine ⟨(f, v1) :: out1, ?_, ?_, ?_, ?_⟩
      · rw [hseq, heq1, ← List.append_cons]
      · simp [hmap1]
      · intro p hp
        rcases List.mem_cons.1 hp with hp | hp
        · rw [hp]; exact hv1k
        · exact hko1 p hp
      · intro j p q hp hq
        cases j with
        | zero =>
            simp only [List.get?] at hp hq
            obtain rfl : p = (f, v) := by simpa using hp.symm
            obtain rfl : q = (f, v1) := by simpa using hq.symm
            refine ⟨rfl, ?_⟩
            rcases hv1c with hc | hc | hc
            · exact Or.inl hc
            · exact Or.inr (Or.inl hc)
            · obtain ⟨hnz, q2, hq2mem, hq2nm, hq2val⟩ := hc
              exact Or.inr (Or.inr ⟨hnz, q2, Or.inl hq2mem, hq2nm, hq2val⟩)
        | succ j =>
            simp only [List.get?] at hp hq
            obtain ⟨h1, h2⟩ := hchar1 j p q hp hq
            refine ⟨h1, ?_⟩
            rcases h2 with hc | hc | hc
            · exact Or.inl hc
            · exact Or.inr (Or.inl hc)
            · obtain ⟨hnz, q2, hq2mem, hq2nm, hq2val⟩ := hc
              refine Or.inr (Or.inr ⟨hnz, q2, ?_, hq2nm, hq2val⟩)
              rcases hq2mem with hm | hm
              · rw [← List.append_cons] at hm
                rcases List.mem_append.1 hm with hm | hm
                · exact Or.inl (List.mem_append.2 (Or.inl hm))
                · rcases List.mem_cons.1 hm with hm | hm
                  · exact Or.inr (by
                      rw [hm]
                      exact List.mem_append.2 (Or.inr (List.mem_cons_self _ _)))
                  · exact Or.inl (List.mem_append.2 (Or.inr (List.mem_cons_of_mem _ hm)))
              · rw [← List.append_cons] at hm
                exact Or.inr hm

/-- The default sweep panics (`log.Panic("Unsupported type")`) as soon
as it reaches a field of an unsupported kind, whatever happened
before. -/
theorem setDefaultsAux_bool : ∀ (todo done : Rec), (∃ p ∈ todo, p.1.kind = .kBool) →
    setDefaultsAux done todo = none := by
  intro todo
  induction todo with
  | nil => intro done h; simp at h
  | cons hd rest ih =>
      obtain ⟨f, v⟩ := hd
      intro done h
      by_cases hk : f.kind = .kBool
      · simp [setDefaultsAux, hk]
      · have hrest : ∃ p ∈ rest, p.1.kind = .kBool := by
          obtain ⟨p, hp, hpk⟩ := h
          rcases List.mem_cons.1 hp with hp | hp
          · exfalso; apply hk; rw [← hpk, hp]
          · exact ⟨p, hp, hpk⟩
        rcases hkc : f.kind with k | k | k | k
        · simp only [setDefaultsAux, hkc]
          cases setFieldDefaults f v (done ++ (f, v) :: rest) with
          | none => rfl
          | some v1 => exact ih (done ++ [(f, v1)]) hrest
        · simp only [setDefaultsAux, hkc]
          cases setFieldDefaults f v (done ++ (f, v) :: rest) with
          | none => rfl
          | some v1 => exact ih (done ++ [(f, v1)]) hrest
        · simp only [setDefaultsAux, hkc]
          exact ih (done ++ [(f, v)]) hrest
        · exact absurd hkc hk

/-- Overwriting an entry's value in place leaves the struct's spec list
unchanged. -/
theorem map_fst_set : ∀ (l : Rec) (n : Nat) (f : FieldSpec) (v v1 : Value),
    l.get? n = some (f, v) → (l.set n (f, v1)).map Prod.fst = l.map Prod.fst := by
  intro l
  induction l with
  | nil => intro n f v v1 h; simp at h
  | cons hd tl ih =>
      intro n f v v1 h
      cases n with
      | zero =>
          simp only [List.get?] at h
          obtain rfl : hd = (f, v) := by simpa using h
          simp
      | succ n =>
          simp only [List.get?] at h
          simp [ih n f v v1 h]

/-- The `readStruct` loop only overwrites field values: the destination
struct's spec list survives every exit. -/
theorem readStructLoop_specs : ∀ (fuel : Nat) (e : Element) (rec : Rec)
    (err : Option DecErr) (rec1 : Rec) (r : Reader),
    readStructLoop fuel e rec = .ok (err, rec1, r) → rec1.map Prod.fst = rec.map Prod.fst := by
  intro fuel
  induction fuel with
  | zero => intro e rec err rec1 r h; simp [readStructLoop] at h
  | succ fuel ih =>
      intro e rec err rec1 r h
      rw [readStructLoop] at h
      rcases hnx : next e with ⟨one, r1⟩
      rw [hnx] at h
      cases one with
      | none =>
          simp only at h
          obtain ⟨_, h2, _⟩ : err = none ∧ rec1 = rec ∧ r = r1 := by
            cases h; exact ⟨rfl, rfl, rfl⟩
          rw [h2]
      | some ne =>
          simp only at h
          by_cases hge : 0 ≤ lookup ne.id (rec.map Prod.fst)
          · rw [if_pos hge] at h
            rcases hget : rec.get? (lookup ne.id (rec.map Prod.fst)).toNat with _ | ⟨f, v⟩
            · rw [hget] at h; cases h
            · rw [hget] at h
              simp only at h
              rcases hrf : readField ne v with a | _ | _
              · rcases a with ⟨v1, er, cr⟩
                rw [hrf] at h
                cases er with
                | none =>
                    have := ih ⟨cr.inside, e.id⟩ _ err rec1 r h
                    rw [this, map_fst_set rec _ f v v1 hget]
                | some er0 =>
                    obtain ⟨_, h2, _⟩ : err = some er0 ∧
                        rec1 = rec.set (lookup ne.id (rec.map Prod.fst)).toNat (f, v1) ∧
                        r = cr.inside := by cases h; exact ⟨rfl, rfl, rfl⟩
                    rw [h2, map_fst_set rec _ f v v1 hget]
              · rw [hrf] at h; cases h
              · rw [hrf] at h; cases h
          · rw [if_neg hge] at h
            by_cases heq1 : lookup ne.id (rec.map Prod.fst) = -1
            · rw [if_pos heq1] at h
              rcases hsk : skip ne with a | _ | _
              · rcases a with ⟨er, cr⟩
                rw [hsk] at h
                cases er with
                | none => exact ih ⟨cr.inside, e.id⟩ _ err rec1 r h
                | some er0 =>
                    obtain ⟨_, h2, _⟩ : err = some er0 ∧ rec1 = rec ∧ r = cr.inside := by
                      cases h; exact ⟨rfl, rfl, rfl⟩
                    rw [h2]
              · rw [hsk] at h; cases h
              · rw [hsk] at h; cases h
            · rw [if_neg heq1] at h
              obtain ⟨_, h2, _⟩ : err = some (.reachedPayload ne ⟨r1, e.id⟩) ∧ rec1 = rec ∧ r = r1 := by
                cases h; exact ⟨rfl, rfl, rfl⟩
              rw [h2]

/-- Go's `remaining` agrees with the leading-zero count of every nonzero
byte and never exceeds 7. -/
theorem remaining_clz : ∀ b < 256, 1 ≤ b → remaining b = clz8 b ∧ remaining b ≤ 7 := by decide

/-- Claim C5: size decoding clears exactly the single marker bit while
identifier decoding preserves it — the size bytes `0x81` and
`0x40 0x01` both decode to the number 1, whereas the identifier vint
`0x81` decodes to the raw unmasked `0x81`. -/
theorem claimC5 :
    readSize (.base [0x81]) = (some 1, .base []) ∧
    readSize (.base [0x40, 0x01]) = (some 1, .base []) ∧
    readVint (.base [0x81]) = (some (0x81, 0), .base []) := by
  refine ⟨by decide, by decide, by decide⟩

/-- Claim C8: decoding `[0x81, 0x81, 0x05]` into a record with one
unsigned-integer field tagged `0x81` succeeds and sets the field to 5
(child id `0x81`, size 1, one big-endian value byte `0x05`). -/
theorem claimC8 :
    unmarshal 2 [0x81, 0x81, 0x05] recA
      = .ok (none, [(fsA, .vUint 5)], .limited 9223372036854775804 (.base [])) := by
  decide

/-- Claim C3 (amended): for every nonzero first byte the total encoded
vint length is 1 plus the byte's leading-zero-bit count (capped at 8),
and `readVint` consumes exactly that many bytes — `0x81` has length 1,
`0x40 0x01` has length 2; but a first byte with no set bits (`0x00`) is
not rejected: `remaining` returns 0 and the byte decodes as a one-byte
vint of value 0. -/
theorem claimC3 (b : Nat) (tail : List Nat) (h1 : 1 ≤ b) (h2 : b < 256)
    (h3 : remaining b ≤ tail.length) :
    remaining b = clz8 b ∧ 1 + remaining b ≤ 8 ∧
    readVint (.base (b :: tail))
      = (some (vintVal b (tail.take (remaining b)), remaining b), .base (tail.drop (remaining b))) ∧
    readVint (.base [0x81]) = (some (0x81, 0), .base []) ∧
    readVint (.base [0x40, 0x01]) = (some (0x4001, 1), .base []) ∧
    readVint (.base [0x00]) = (some (0, 0), .base []) := by
  obtain ⟨hclz, hle⟩ := remaining_clz b h2 h1
  exact ⟨hclz, by omega, readVint_base_cons b tail h3, by decide, by decide, by decide⟩

/-- Witness for claim C3 at first byte `0x40` with one continuation
byte `0x01`: declared length 2, decoded exactly. -/
theorem claimC3_witness :
    remaining 0x40 = clz8 0x40 ∧ 1 + remaining 0x40 ≤ 8 ∧
    readVint (.base (0x40 :: [0x01]))
      = (some (vintVal 0x40 ([0x01].take (remaining 0x40)), remaining 0x40),
         .base ([0x01].drop (remaining 0x40))) ∧
    readVint (.base [0x81]) = (some (0x81, 0), .base []) ∧
    readVint (.base [0x40, 0x01]) = (some (0x4001, 1), .base []) ∧
    readVint (.base [0x00]) = (some (0, 0), .base []) :=
  claimC3 0x40 [0x01] (by decide) (by decide) (by decide)

/-- Claim C3 counterexample: on the first byte `0x00` the vint read
succeeds (value 0, no continuation bytes) instead of failing with a
decode error as the claim states. -/
theorem claimC3_counterexample :
    readVint (.base [0x00]) = (some (0, 0), .base []) ∧
    (readVint (.base [0x00])).1 ≠ none := by
  refine ⟨by decide, by decide⟩

/-- Claim C1 (amended): when the input ends partway through a vint — the
first byte read, a declared continuation byte missing — the vint read
fails with `io.EOF`, which `readStruct` cannot distinguish from
end-of-stream at the cursor's own boundary: the child loop ends
normally, defaults are applied, and the decode returns without error
instead of aborting. -/
theorem claimC1 (b : Nat) (tail : List Nat) (rec dv : Rec) (fuel pid : Nat) (m : Int)
    (hshort : tail.length < remaining b)
    (hm : (tail.length : Int) + 1 ≤ m)
    (hsd : setDefaults rec = some dv) :
    readStruct (fuel + 1) ⟨.limited m (.base (b :: tail)), pid⟩ rec
      = .ok (none, dv, .limited (m - 1 - (tail.length : Int)) (.base [])) := by
  have hm0 : 0 < m := by omega
  have hdrain := readVintLoop_drain tail (remaining b) b (m - 1) hshort (by omega)
  have hnx : next ⟨.limited m (.base (b :: tail)), pid⟩
      = (none, .limited (m - 1 - (tail.length : Int)) (.base [])) := by
    simp only [next, readVint, read1_limited_cons m hm0 b tail, hdrain]
  simp only [readStruct, readStructLoop, hnx, hsd]

/-- Witness for claim C1 at the concrete stream `0x40` (a two-byte vint
cut short) decoded into the one-field record: the decode succeeds. -/
theorem claimC1_witness :
    readStruct 1 ⟨.limited maxInt64 (.base [0x40]), 0⟩ recA
      = .ok (none, recA, .limited (maxInt64 - 1 - 0) (.base [])) :=
  claimC1 0x40 [] recA recA 0 0 maxInt64 (by decide) (by decide) (by decide)

/-- Claim C1 counterexample: the stream `0x40` ends partway through a
two-byte vint, yet the whole decode returns a nil error — the claimed
fatal abort does not happen. -/
theorem claimC1_counterexample :
    unmarshal 2 [0x40] recA = .ok (none, recA, .limited 9223372036854775806 (.base [])) := by
  decide

/-- Claim C4 (amended): when a still-zero scalar field declares both a
literal default and a default link, the link assignment runs after the
literal inside the same zero check, with no second zero check, and
overwrites it: the field ends equal to the linked sibling's current
value, not the parsed literal. -/
theorem claimC4 (f : FieldSpec) (v : Value) (s : Rec) (g : FieldSpec) (gv : Value)
    (hz : isZero v = true) (hd : f.ebmldef ≠ "") (hl : f.ebmldeflink ≠ "")
    (hk : f.kind = .kUint ∨ f.kind = .kInt)
    (hfind : fieldByName s f.ebmldeflink = some (g, gv))
    (hgk : valueKind gv = f.kind) :
    setFieldDefaults f v s = some gv := by
  have hlit : (if f.ebmldef ≠ "" then
      (match f.kind with
       | .kInt => some (Value.vInt (goParseInt f.ebmldef))
       | .kUint => some (Value.vUint (goParseUint f.ebmldef))
       | _ => none)
    else some v) = some (literalVal f) := by
    rcases hk with hk | hk <;> simp [hd, literalVal, hk]
  simp only [setFieldDefaults, hz, if_true, hlit, hl, hfind]
  simp [hgk]
  exact fun h => absurd h hl

/-- Witness for claim C4: field `A` (literal default 7, link to `B`)
still zero, sibling `B` currently 3 — the result is `B`'s value 3, not
the literal 7. -/
theorem claimC4_witness :
    setFieldDefaults fsA7B (.vUint 0) [(fsB3, .vUint 3), (fsA7B, .vUint 0)]
      = some (.vUint 3) :=
  claimC4 fsA7B (.vUint 0) [(fsB3, .vUint 3), (fsA7B, .vUint 0)] fsB3 (.vUint 3)
    (by decide) (by decide) (by decide) (Or.inl rfl) (by decide) rfl

/-- Claim C4 counterexample: decoding an empty stream into the record
whose field `A` declares literal default "7" and link "B" (with `B`
defaulting to 3) ends with `A = 3`, not the literal 7 the claim
requires. -/
theorem claimC4_counterexample :
    unmarshal 1 [] recBA
      = .ok (none, [(fsB3, .vUint 3), (fsA7B, .vUint 3)], .limited maxInt64 (.base [])) ∧
    (Value.vUint 3 : Value) ≠ .vUint 7 := by
  refine ⟨by decide, by decide⟩

/-- Claim C6: a child element whose identifier matches no destination
field is skipped by consuming exactly its declared byte count, every
destination field is left unchanged, and decoding continues with the
sibling element that follows. -/
theorem claimC6 (rec : Rec) (fuel pid : Nat) (m : Int) (idB szB : Nat) (pl rest : List Nat)
    (hi1 : 128 ≤ idB) (hi2 : idB < 256) (hs1 : 128 ≤ szB) (hs2 : szB < 256)
    (hpl : pl.length = szB - 128)
    (hm : (szB : Int) - 128 + 2 ≤ m)
    (hlk : lookup idB (rec.map Prod.fst) = -1) :
    readStruct (fuel + 1) ⟨.limited m (.base (idB :: szB :: (pl ++ rest))), pid⟩ rec
      = readStruct fuel ⟨.limited (m - 2 - (pl.length : Int)) (.base rest), pid⟩ rec := by
  have hm2 : 1 < m := by omega
  have hnx := next_single idB szB hi1 hi2 hs1 hs2 m hm2 (pl ++ rest) pid
  have hszlen : ((szB : Int) - 128) = ((pl.length : Nat) : Int) := by omega
  have hrd := readData_exact2 pl rest (m - 2) (by omega) idB
  have hloop :
      readStructLoop (fuel + 1) ⟨.limited m (.base (idB :: szB :: (pl ++ rest))), pid⟩ rec
        = readStructLoop fuel ⟨.limited (m - 2 - (pl.length : Int)) (.base rest), pid⟩ rec := by
    rw [readStructLoop, hnx]
    simp only [hlk, hszlen]
    rw [show skip ⟨.limited ((pl.length : Nat) : Int) (.limited (m - 2)
          (.base (pl ++ rest))), idB⟩
        = .ok (none, .limited 0 (.limited (m - 2 - (pl.length : Int)) (.base rest))) by
      simp only [skip, hrd]]
    simp [Reader.inside]
  rw [readStruct, readStruct, hloop]

/-- Witness for claim C6: an unknown element (id `0x90`, size 1) in
front of a known one is skipped and decoding proceeds on the rest. -/
theorem claimC6_witness :
    readStruct 2 ⟨.limited maxInt64 (.base [0x90, 0x81, 0xAA, 0x81, 0x81, 0x05]), 0⟩ recA
      = readStruct 1 ⟨.limited (maxInt64 - 2 - 1) (.base [0x81, 0x81, 0x05]), 0⟩ recA :=
  claimC6 recA 1 0 maxInt64 0x90 0x81 [0xAA] [0x81, 0x81, 0x05] (by decide) (by decide)
    (by decide) (by decide) (by decide) (by decide) (by decide)

/-- Claim C2 (amended): a child whose identifier matches a stop-tagged
field aborts the loop at once and fails the decode with a
payload-reached signal carrying the triggering child (header consumed,
payload intact) and the parent cursor positioned immediately after the
child's header — that is, at the start of the child's payload; the
parent's next `Next` call yields the sibling immediately following the
child only once the child's payload has been drained. -/
theorem claimC2 (rec dv : Rec) (fuel pid : Nat) (m : Int) (sIdB sSzB sibIdB sibSzB : Nat)
    (pl more : List Nat)
    (h1 : 128 ≤ sIdB) (h2 : sIdB < 256) (h3 : 128 ≤ sSzB) (h4 : sSzB < 256)
    (h5 : 128 ≤ sibIdB) (h6 : sibIdB < 256) (h7 : 128 ≤ sibSzB) (h8 : sibSzB < 256)
    (hpl : pl.length = sSzB - 128)
    (hm : (sSzB : Int) - 128 + 4 ≤ m)
    (hlk : lookup sIdB (rec.map Prod.fst) < -1)
    (hsd : setDefaults rec = some dv) :
    readStruct (fuel + 1)
      ⟨.limited m (.base (sIdB :: sSzB :: (pl ++ sibIdB :: sibSzB :: more))), pid⟩ rec
      = .ok (some (.reachedPayload
            ⟨.limited ((sSzB : Int) - 128)
              (.limited (m - 2) (.base (pl ++ sibIdB :: sibSzB :: more))), sIdB⟩
            ⟨.limited (m - 2) (.base (pl ++ sibIdB :: sibSzB :: more)), pid⟩),
          dv, .limited (m - 2) (.base (pl ++ sibIdB :: sibSzB :: more))) ∧
    readData ⟨.limited ((sSzB : Int) - 128)
        (.limited (m - 2) (.base (pl ++ sibIdB :: sibSzB :: more))), sIdB⟩
      = .ok (pl, none,
          .limited 0 (.limited (m - 2 - (pl.length : Int)) (.base (sibIdB :: sibSzB :: more)))) ∧
    next ⟨.limited (m - 2 - (pl.length : Int)) (.base (sibIdB :: sibSzB :: more)), pid⟩
      = (some ⟨.limited ((sibSzB : Int) - 128)
            (.limited (m - 2 - (pl.length : Int) - 2) (.base more)), sibIdB⟩,
         .limited (m - 2 - (pl.length : Int) - 2) (.base more)) := by
  have hm2 : 1 < m := by omega
  have hszlen : ((sSzB : Int) - 128) = ((pl.length : Nat) : Int) := by omega
  have hnx := next_single sIdB sSzB h1 h2 h3 h4 m hm2 (pl ++ sibIdB :: sibSzB :: more) pid
  refine ⟨?_, ?_, ?_⟩
  · have hge : ¬ 0 ≤ lookup sIdB (rec.map Prod.fst) := by omega
    have hne : ¬ lookup sIdB (rec.map Prod.fst) = -1 := by omega
    rw [readStruct, readStructLoop, hnx]
    simp only [hge, hne, if_false, hsd]
  · rw [hszlen]
    exact readData_exact2 pl (sibIdB :: sibSzB :: more) (m - 2) (by omega) sIdB
  · exact next_single sibIdB sibSzB h5 h6 h7 h8 (m - 2 - (pl.length : Int)) (by omega) more pid

/-- Witness for claim C2: the one-stop-field record on the stream
`0xA1 0x81 0xFF 0xA2 0x80` (stop child id `0xA1` of size 1, then a
sibling `0xA2` of size 0). -/
theorem claimC2_witness :
    readStruct 1
      ⟨.limited maxInt64 (.base (0xA1 :: 0x81 :: ([0xFF] ++ 0xA2 :: 0x80 :: []))), 0⟩ recStop
      = .ok (some (.reachedPayload
            ⟨.limited ((0x81 : Int) - 128)
              (.limited (maxInt64 - 2) (.base ([0xFF] ++ 0xA2 :: 0x80 :: []))), 0xA1⟩
            ⟨.limited (maxInt64 - 2) (.base ([0xFF] ++ 0xA2 :: 0x80 :: [])), 0⟩),
          recStop, .limited (maxInt64 - 2) (.base ([0xFF] ++ 0xA2 :: 0x80 :: []))) ∧
    readData ⟨.limited ((0x81 : Int) - 128)
        (.limited (maxInt64 - 2) (.base ([0xFF] ++ 0xA2 :: 0x80 :: []))), 0xA1⟩
      = .ok ([0xFF], none,
          .limited 0 (.limited (maxInt64 - 2 - (([0xFF].length : Nat) : Int))
            (.base (0xA2 :: 0x80 :: [])))) ∧
    next ⟨.limited (maxInt64 - 2 - (([0xFF].length : Nat) : Int)) (.base (0xA2 :: 0x80 :: [])), 0⟩
      = (some ⟨.limited ((0x80 : Int) - 128)
            (.limited (maxInt64 - 2 - (([0xFF].length : Nat) : Int) - 2) (.base [])), 0xA2⟩,
         .limited (maxInt64 - 2 - (([0xFF].length : Nat) : Int) - 2) (.base [])) :=
  claimC2 recStop recStop 0 0 maxInt64 0xA1 0x81 0xA2 0x80 [0xFF] []
    (by decide) (by decide) (by decide) (by decide) (by decide) (by decide) (by decide)
    (by decide) (by decide) (by decide) (by decide) (by decide)

/-- Claim C2 counterexample: after the stop signal the parent cursor
sits at the start of the triggering child's payload, so with a
non-empty child the parent's very next `Next` call yields an element
fabricated from payload bytes (id `0xFF` here), not the true sibling
`0xA2` that follows the child. -/
theorem claimC2_counterexample :
    readStruct 1 ⟨.limited maxInt64 (.base [0xA1, 0x81, 0xFF, 0xA2, 0x80]), 0⟩ recStop
      = .ok (some (.reachedPayload
            ⟨.limited 1 (.limited 9223372036854775805 (.base [0xFF, 0xA2, 0x80])), 0xA1⟩
            ⟨.limited 9223372036854775805 (.base [0xFF, 0xA2, 0x80]), 0⟩),
          recStop, .limited 9223372036854775805 (.base [0xFF, 0xA2, 0x80])) ∧
    (next ⟨.limited 9223372036854775805 (.base [0xFF, 0xA2, 0x80]), 0⟩).1
      = some ⟨.limited 34 (.limited 9223372036854775803 (.base [0x80])), 0xFF⟩ ∧
    (0xFF : Nat) ≠ 0xA2 := by
  refine ⟨by decide, by decide, by decide⟩

/-- Claim C7: decoding an empty input into a record built from supported
field kinds (with well-formed links) succeeds — the immediate
end-of-stream is not an error — and every field ends at its literal
default, a linked sibling's value, or its zero value. -/
theorem claimC7 (rec : Rec) (fuel pid : Nat) (m : Int)
    (hkinds : kindsOk rec)
    (hsupp : ∀ p ∈ rec, p.1.kind = .kUint ∨ p.1.kind = .kInt ∨ p.1.kind = .kBytes)
    (hlinks : linksOk rec)
    (hzero : ∀ p ∈ rec, isZero p.2 = true) :
    ∃ out, readStruct (fuel + 1) ⟨.limited m (.base []), pid⟩ rec
        = .ok (none, out, .limited m (.base [])) ∧
      out.map Prod.fst = rec.map Prod.fst ∧
      (∀ j p q, rec.get? j = some p → out.get? j = some q →
        q.1 = p.1 ∧
        (q.2 = p.2 ∨
         (p.1.ebmldef ≠ "" ∧ p.1.ebmldeflink = "" ∧ q.2 = literalVal p.1) ∨
         (p.1.ebmldeflink ≠ "" ∧
          ∃ q2, (q2 ∈ rec ∨ q2 ∈ out) ∧ q2.1.name = p.1.ebmldeflink ∧ q.2 = q2.2))) := by
  obtain ⟨out, hsd, hmap, hko, hchar⟩ := setDefaultsAux_char rec [] hkinds hsupp hlinks
  have hnx : next ⟨.limited m (.base []), pid⟩ = (none, .limited m (.base [])) := by
    simp only [next, readVint, read1_limited_nil]
  refine ⟨out, ?_, hmap, ?_⟩
  · rw [readStruct, readStructLoop, hnx]
    simp only [setDefaults]
    rw [hsd]
    simp
  · intro j p q hp hq
    obtain ⟨hq1, hc⟩ := hchar j p q hp hq
    refine ⟨hq1, ?_⟩
    rcases hc with hc | hc | hc
    · exact Or.inl hc
    · exact Or.inr (Or.inl hc)
    · obtain ⟨hnz, q2, hm2, hnm2, hval2⟩ := hc
      refine Or.inr (Or.inr ⟨hnz, q2, ?_, hnm2, hval2⟩)
      exact hm2

/-- Witness for claim C7: the two-field record with a literal default on
`B` and a link on `A`, decoded from the empty stream. -/
theorem claimC7_witness :
    ∃ out, readStruct 1 ⟨.limited maxInt64 (.base []), 0⟩ recBA
        = .ok (none, out, .limited maxInt64 (.base [])) ∧
      out.map Prod.fst = recBA.map Prod.fst ∧
      (∀ j p q, recBA.get? j = some p → out.get? j = some q →
        q.1 = p.1 ∧
        (q.2 = p.2 ∨
         (p.1.ebmldef ≠ "" ∧ p.1.ebmldeflink = "" ∧ q.2 = literalVal p.1) ∨
         (p.1.ebmldeflink ≠ "" ∧
          ∃ q2, (q2 ∈ recBA ∨ q2 ∈ out) ∧ q2.1.name = p.1.ebmldeflink ∧ q.2 = q2.2))) :=
  claimC7 recBA 0 0 maxInt64
    (by decide : ∀ p ∈ recBA, valueKind p.2 = p.1.kind)
    (by decide)
    (by decide : ∀ p ∈ recBA, p.1.ebmldeflink ≠ "" →
      (∃ q ∈ recBA, q.1.name = p.1.ebmldeflink) ∧
      (∀ q ∈ recBA, q.1.name = p.1.ebmldeflink → q.1.kind = p.1.kind))
    (by decide)

/-- Claim C9: the defaults sweep runs on every exit of `readStruct`,
error or not — whatever the loop ends with, the struct handed back is
the `setDefaults` image of the loop's final struct, so failure paths
still carry the defaulted destination. -/
theorem claimC9 (fuel : Nat) (e : Element) (rec : Rec) (err : Option DecErr) (dv : Rec)
    (r : Reader) (h : readStruct fuel e rec = .ok (err, dv, r)) :
    ∃ w, readStructLoop fuel e rec = .ok (err, w, r) ∧ setDefaults w = some dv := by
  rw [readStruct] at h
  rcases hl : readStructLoop fuel e rec with a | _ | _
  · rcases a with ⟨err1, rec1, r1⟩
    rw [hl] at h
    simp only at h
    rcases hs : setDefaults rec1 with _ | rec2
    · rw [hs] at h; cases h
    · rw [hs] at h
      obtain ⟨he, hd, hr⟩ : err1 = err ∧ rec2 = dv ∧ r1 = r := by cases h; exact ⟨rfl, rfl, rfl⟩
      exact ⟨rec1, by rw [he, hr], by rw [hs, hd]⟩
  · rw [hl] at h; cases h
  · rw [hl] at h; cases h

/-- Witness for claim C9: a decode that fails with the payload-reached
signal still hands back the destination with `A` defaulted to 7. -/
theorem claimC9_witness :
    ∃ w, readStructLoop 1 ⟨.limited maxInt64 (.base [0xA1, 0x80]), 0⟩ recStopA
        = .ok (some (.reachedPayload
              ⟨.limited 0 (.limited 9223372036854775805 (.base [])), 0xA1⟩
              ⟨.limited 9223372036854775805 (.base []), 0⟩), w,
            .limited 9223372036854775805 (.base [])) ∧
      setDefaults w = some [(fsStop, .vUint 0), (fsA7, .vUint 7)] :=
  claimC9 1 ⟨.limited maxInt64 (.base [0xA1, 0x80]), 0⟩ recStopA _ _ _ (by decide)

/-- Claim C10: a destination record holding a field of a kind outside
the supported set (here `bool`) can never decode successfully — any
completed decode dies in the defaults sweep's
`log.Panic("Unsupported type")` — and on the empty input the decode
panics outright even though no element ever matched that field. -/
theorem claimC10 (rec : Rec) (hb : ∃ p ∈ rec, p.1.kind = .kBool) :
    (∀ fuel e out, readStruct fuel e rec ≠ .ok out) ∧
    (∀ (m : Int) (pid fuel : Nat),
      readStruct (fuel + 1) ⟨.limited m (.base []), pid⟩ rec = .panic) := by
  constructor
  · intro fuel e out h
    rw [readStruct] at h
    rcases hl : readStructLoop fuel e rec with a | _ | _
    · rcases a with ⟨err1, rec1, r1⟩
      rw [hl] at h
      simp only at h
      have hspec := readStructLoop_specs fuel e rec err1 rec1 r1 hl
      have hb1 : ∃ p ∈ rec1, p.1.kind = .kBool := by
        obtain ⟨p, hp, hpk⟩ := hb
        have hmem : p.1 ∈ rec1.map Prod.fst := by
          rw [hspec]; exact List.mem_map_of_mem _ hp
        obtain ⟨q, hq, hq1⟩ := List.mem_map.1 hmem
        exact ⟨q, hq, by rw [hq1]; exact hpk⟩
      have hnone : setDefaults rec1 = none := setDefaultsAux_bool rec1 [] hb1
      rw [hnone] at h
      cases h
    · rw [hl] at h; cases h
    · rw [hl] at h; cases h
  · intro m pid fuel
    have hnx : next ⟨.limited m (.base []), pid⟩ = (none, .limited m (.base [])) := by
      simp only [next, readVint, read1_limited_nil]
    rw [readStruct, readStructLoop, hnx]
    have hnone : setDefaults rec = none := setDefaultsAux_bool rec [] hb
    simp only [hnone]

/-- Witness for claim C10: the record with the single `bool` field
panics on the empty input. -/
theorem claimC10_witness :
    readStruct 1 ⟨.limited maxInt64 (.base []), 0⟩ recBool = .panic :=
  (claimC10 recBool (by decide)).2 maxInt64 0 0

end EbmlGo
